import Mathlib

/-!
Verification of the n64 recompiler runtime support layer
(`src/types.rs` and `src/utils.rs`).

The execution context (`RecompContext`), the virtual-address translation
and byte-order-corrected memory read (`to_ptr`, `mem_b`), the argument
marshalling operations (`get_arg_u32`, `get_arg_u64`, `get_arg_f32`,
`get_arg_ptr`, `get_arg_string`) and the return-value writer
(`set_return`) are embedded as executable Lean definitions.

Machine integers are natural numbers with explicit reduction modulo
`2 ^ 64` / `2 ^ 32` where the Rust code wraps; 32-bit floating values
are represented by their bit patterns (no floating arithmetic is ever
performed by the code under study, only bit movement); fallible
operations (`assert!` / `panic!`) return `Option` / `Except`.
-/

namespace N64Recomp

/-- The virtual-to-host translation subtrahend `0xFFFFFFFF80000000`
(the base of the architecture's primary mapped segment). -/
def SEG_OFFSET : Nat := 0xFFFFFFFF80000000

/-- `u64::wrapping_add`. -/
def wrappingAdd64 (a b : Nat) : Nat := (a + b) % 2 ^ 64

/-- `u64::wrapping_sub`. -/
def wrappingSub64 (a b : Nat) : Nat := (a + (2 ^ 64 - b % 2 ^ 64)) % 2 ^ 64

/-- Reinterpretation of an unsigned byte as a signed 8-bit integer
(`as i8` applied to a `u8`).  The argument is reduced modulo 256 so the
function is total on `Nat`. -/
def u8ToI8 (b : Nat) : Int :=
  if b % 256 < 128 then (b % 256 : Int) else (b % 256 : Int) - 256

/-- Reinterpretation of a signed 8-bit integer as an unsigned byte
(`as u8` applied to an `i8`). -/
def i8ToU8 (v : Int) : Nat := (v % 256).toNat

/-- The signed 32-bit integer whose bit pattern is the low 32 bits of `b`. -/
def i32OfBits (b : Nat) : Int :=
  if b % 2 ^ 32 < 2 ^ 31 then (b % 2 ^ 32 : Int) else (b % 2 ^ 32 : Int) - 2 ^ 32

/-- `as u64` applied to an `i32`: sign-extension to 64 bits, given as the
bit pattern (a natural number below `2 ^ 64`). -/
def i32ToU64 (v : Int) : Nat := (v % 2 ^ 64).toNat

/-- `mem_b` from `src/utils.rs`: read one byte of guest memory with the
byte-order remap.  The RDRAM (host memory) is modeled as a total function
from the host byte offset (relative to the region base pointer) to the
stored byte value.

    let byte_addr = addr.wrapping_add(offset as u64);
    let rdram_offset = (byte_addr ^ 3).wrapping_sub(0xFFFFFFFF80000000);
    *rdram.add(rdram_offset as usize) as i8
-/
def mem_b (rdram : Nat → Nat) (addr : Nat) (offset : Nat) : Int :=
  let byte_addr := wrappingAdd64 addr offset
  let rdram_offset := wrappingSub64 (byte_addr ^^^ 3) SEG_OFFSET
  u8ToI8 (rdram rdram_offset)

/-- The host byte offset that `mem_b rdram addr k` reads from (the index
computation inside `mem_b`, exposed for stating storage hypotheses). -/
def memIndex (addr k : Nat) : Nat :=
  wrappingSub64 (wrappingAdd64 addr k ^^^ 3) SEG_OFFSET

/-- Spec-side formula for the byte-order remap of claim C1: the host
offset `(A + j) - 0xFFFFFFFF80000000`, computed in the integers modulo
`2 ^ 64`, with its low two bits XORed with 3. -/
def specByteIndex (A j : Nat) : Nat :=
  ((((A : Int) + (j : Int) - (SEG_OFFSET : Int)) % 2 ^ 64).toNat) ^^^ 3

/-- Spec-side formula for address translation of claim C5: the region
base plus `(addr - 0xFFFFFFFF80000000) mod 2 ^ 64`, the subtraction
performed in the integers. -/
def specTranslate (rdram addr : Nat) : Nat :=
  rdram + (((addr : Int) - (SEG_OFFSET : Int)) % 2 ^ 64).toNat

/-- A MIPS floating-point register (`Fpr` in `src/types.rs`): an 8-byte
cell.  The source union offers four views (f64, float pair, u32 pair,
raw u64) that all alias the same bytes; the cell is modeled by the bit
patterns of its two 32-bit halves (`f.fl` / `u.u32l` = `lo`,
`f.fh` / `u.u32h` = `hi`). -/
structure Fpr where
  lo : Nat
  hi : Nat
deriving DecidableEq

/-- `RecompContext` from `src/types.rs`: the complete MIPS64 CPU state.
Field names and order follow the source declaration.  The `f_odd`
pointer is modeled as a numeric address (it is never dereferenced by the
code under study). -/
structure RecompContext where
  r0 : Nat
  r1 : Nat
  r2 : Nat
  r3 : Nat
  r4 : Nat
  r5 : Nat
  r6 : Nat
  r7 : Nat
  r8 : Nat
  r9 : Nat
  r10 : Nat
  r11 : Nat
  r12 : Nat
  r13 : Nat
  r14 : Nat
  r15 : Nat
  r16 : Nat
  r17 : Nat
  r18 : Nat
  r19 : Nat
  r20 : Nat
  r21 : Nat
  r22 : Nat
  r23 : Nat
  r24 : Nat
  r25 : Nat
  r26 : Nat
  r27 : Nat
  r28 : Nat
  r29 : Nat
  r30 : Nat
  r31 : Nat
  f0 : Fpr
  f1 : Fpr
  f2 : Fpr
  f3 : Fpr
  f4 : Fpr
  f5 : Fpr
  f6 : Fpr
  f7 : Fpr
  f8 : Fpr
  f9 : Fpr
  f10 : Fpr
  f11 : Fpr
  f12 : Fpr
  f13 : Fpr
  f14 : Fpr
  f15 : Fpr
  f16 : Fpr
  f17 : Fpr
  f18 : Fpr
  f19 : Fpr
  f20 : Fpr
  f21 : Fpr
  f22 : Fpr
  f23 : Fpr
  f24 : Fpr
  f25 : Fpr
  f26 : Fpr
  f27 : Fpr
  f28 : Fpr
  f29 : Fpr
  f30 : Fpr
  f31 : Fpr
  hi : Nat
  lo : Nat
  f_odd : Nat
  status_reg : Nat
  mips3_float_mode : Nat
deriving DecidableEq

/-- Register alias `a0` (= `r4`), as in `src/types.rs`. -/
def RecompContext.a0 (c : RecompContext) : Nat := c.r4

/-- Register alias `a1` (= `r5`). -/
def RecompContext.a1 (c : RecompContext) : Nat := c.r5

/-- Register alias `a2` (= `r6`). -/
def RecompContext.a2 (c : RecompContext) : Nat := c.r6

/-- Register alias `a3` (= `r7`). -/
def RecompContext.a3 (c : RecompContext) : Nat := c.r7

/-- Register alias `v0` (= `r2`), the primary integer return slot. -/
def RecompContext.v0 (c : RecompContext) : Nat := c.r2

/-- The content of argument slot `i` (registers r4-r7, aliased a0-a3);
only meaningful for `i < 4`. -/
def RecompContext.argSlot (c : RecompContext) : Nat → Nat
  | 0 => c.r4
  | 1 => c.r5
  | 2 => c.r6
  | _ => c.r7

/-- `RecompContext::to_ptr` from `src/utils.rs`: translate a virtual
address to a host location.  The region base pointer is a numeric host
address; `.add` on it is plain addition (no range check in the source).

    let offset = addr.wrapping_sub(0xFFFFFFFF80000000);
    rdram.add(offset as usize) as *mut T
-/
def RecompContext.to_ptr (_ : RecompContext) (rdram : Nat) (addr : Nat) : Nat :=
  let offset := wrappingSub64 addr SEG_OFFSET
  rdram + offset

/-- `RecompContext::get_arg_u32`: `assert!(index < 4)`, select a0-a3 by
index, truncate with `as u32`.  `none` models the failed assertion
(panic); the wildcard arm of the inner match mirrors the source's
`unreachable!()` and cannot fire under the guard. -/
def RecompContext.get_arg_u32 (c : RecompContext) (index : Nat) : Option Nat :=
  if index < 4 then
    let reg := match index with
      | 0 => c.a0
      | 1 => c.a1
      | 2 => c.a2
      | 3 => c.a3
      | _ => 0
    some (reg % 2 ^ 32)
  else
    none

/-- `RecompContext::get_arg_u64`: as `get_arg_u32` but the full 64-bit
register value. -/
def RecompContext.get_arg_u64 (c : RecompContext) (index : Nat) : Option Nat :=
  if index < 4 then
    some (match index with
      | 0 => c.a0
      | 1 => c.a1
      | 2 => c.a2
      | 3 => c.a3
      | _ => 0)
  else
    none

/-- `RecompContext::get_arg_f32`: `assert!(index == 0)`, then read the
low 32-bit floating lane of the fixed register `f12` (`self.f12.f.fl`).
The result is the lane's bit pattern. -/
def RecompContext.get_arg_f32 (c : RecompContext) (index : Nat) : Option Nat :=
  if index = 0 then some c.f12.lo else none

/-- `RecompContext::get_arg_ptr`: read argument `index` as a virtual
address and translate it with `to_ptr`.  The assertion inside
`get_arg_u64` propagates as `none`. -/
def RecompContext.get_arg_ptr (c : RecompContext) (rdram : Nat) (index : Nat) :
    Option Nat :=
  match c.get_arg_u64 index with
  | none => none
  | some addr => some (c.to_ptr rdram addr)

/-- The string-length loop of `get_arg_string`:

    let mut len = 0;
    loop {
        let byte = mem_b(rdram, str_ptr_addr, len);
        if byte == 0 { break; }
        len += 1;
    }

The source loop has no bound; `fuel` bounds the number of iterations the
model is allowed, and `none` means the loop is still running after
`fuel` iterations. -/
def strlenLoop (rdram : Nat → Nat) (addr : Nat) : Nat → Nat → Option Nat
  | 0, _ => none
  | fuel + 1, len =>
    if mem_b rdram addr len = 0 then some len
    else strlenLoop rdram addr fuel (len + 1)

/-- `RecompContext::get_arg_string`: read argument `index` as the string
address, find the first zero byte with the fueled loop, then copy each
preceding byte (`byte as u8 as char`, one byte
per character, modeled by its code point).  Outer `none` models the
index assertion failing (panic); `some none` models the scan still
looping after `fuel` iterations; `some (some s)` is a normal return. -/
def RecompContext.get_arg_string (c : RecompContext) (rdram : Nat → Nat)
    (index : Nat) (fuel : Nat) : Option (Option (List Nat)) :=
  match c.get_arg_u64 index with
  | none => none
  | some str_ptr_addr =>
    match strlenLoop rdram str_ptr_addr fuel 0 with
    | none => some none
    | some len =>
      some (some ((List.range len).map fun i => i8ToU8 (mem_b rdram str_ptr_addr i)))

/-- The closed set of value kinds that can reach `set_return`'s
type-name dispatch: the supported kinds (f32, i32, u32, i16, u16, i8,
u8, bool) together with the 64-bit kinds the design rejects (i64, u64,
f64).  Each value carries its bit pattern (a `Bool` for `bool`). -/
inductive RVal where
  | rf32 (b : Nat)
  | ri32 (b : Nat)
  | ru32 (b : Nat)
  | ri16 (b : Nat)
  | ru16 (b : Nat)
  | ri8 (b : Nat)
  | ru8 (b : Nat)
  | rbool (b : Bool)
  | ri64 (b : Nat)
  | ru64 (b : Nat)
  | rf64 (b : Nat)
deriving DecidableEq

/-- `std::any::type_name::<T>()` for each kind. -/
def RVal.type_name : RVal → String
  | .rf32 _ => "f32"
  | .ri32 _ => "i32"
  | .ru32 _ => "u32"
  | .ri16 _ => "i16"
  | .ru16 _ => "u16"
  | .ri8 _ => "i8"
  | .ru8 _ => "u8"
  | .rbool _ => "bool"
  | .ri64 _ => "i64"
  | .ru64 _ => "u64"
  | .rf64 _ => "f64"

/-- `size_of::<T>()` in bytes for each kind. -/
def RVal.byteSize : RVal → Nat
  | .rf32 _ => 4
  | .ri32 _ => 4
  | .ru32 _ => 4
  | .ri16 _ => 2
  | .ru16 _ => 2
  | .ri8 _ => 1
  | .ru8 _ => 1
  | .rbool _ => 1
  | .ri64 _ => 8
  | .ru64 _ => 8
  | .rf64 _ => 8

/-- The bit pattern of the carried value (`true` is the byte 1, `false`
the byte 0). -/
def RVal.bits : RVal → Nat
  | .rf32 b => b
  | .ri32 b => b
  | .ru32 b => b
  | .ri16 b => b
  | .ru16 b => b
  | .ri8 b => b
  | .ru8 b => b
  | .rbool b => if b then 1 else 0
  | .ri64 b => b
  | .ru64 b => b
  | .rf64 b => b

/-- `true` for the kinds `set_return` accepts (everything but the 64-bit
kinds). -/
def RVal.supportedKind : RVal → Bool
  | .ri64 _ => false
  | .ru64 _ => false
  | .rf64 _ => false
  | _ => true

/-- `true` exactly for the `f32` kind. -/
def RVal.isFloatKind : RVal → Bool
  | .rf32 _ => true
  | _ => false

/-- Model of `std::mem::transmute_copy::<T, i32>(&val)`: it always reads
`size_of::<i32>() = 4` bytes starting at `&val`.  When `T` is narrower
than 4 bytes this read runs past the value - undefined behavior in the
source - and the bytes beyond the value are whatever happens to sit
there; they are modeled by the unspecified parameter `junk`
(little-endian host layout: the value occupies the low-order bytes). -/
def transmuteCopyI32 (v : RVal) (junk : Nat) : Nat :=
  if 4 ≤ v.byteSize then v.bits % 2 ^ 32
  else v.bits % 2 ^ (8 * v.byteSize) + 2 ^ (8 * v.byteSize) * (junk % 2 ^ (32 - 8 * v.byteSize))

/-- `RecompContext::set_return` from `src/utils.rs`: dispatch on
`type_name::<T>()`.  For `"f32"` write the value's bit pattern into the
low lane of `f0` (`self.f0.f.fl = float_val`); for the integer/boolean
names form an `i32` by `transmute_copy`, convert with `as u64`
(sign-extension) and store it into `r2`; otherwise panic, modeled as
`Except.error` carrying the context at the moment of the panic (nothing
was written before it). -/
def RecompContext.set_return (c : RecompContext) (v : RVal) (junk : Nat) :
    Except RecompContext RecompContext :=
  let type_name := v.type_name
  if type_name = "f32" then
    let float_val := v.bits % 2 ^ 32
    Except.ok { c with f0 := { lo := float_val, hi := c.f0.hi } }
  else if type_name = "i32" || type_name = "u32" || type_name = "i16" ||
      type_name = "u16" || type_name = "i8" || type_name = "u8" ||
      type_name = "bool" then
    let int_val := i32OfBits (transmuteCopyI32 v junk)
    Except.ok { c with r2 := i32ToU64 int_val }
  else
    Except.error c

/-- All fields of two contexts other than `r2` and `f0` agree (the frame
predicate for `set_return`). -/
def agreesExceptReturns (a b : RecompContext) : Prop :=
  a.r0 = b.r0 ∧ a.r1 = b.r1 ∧ a.r3 = b.r3 ∧ a.r4 = b.r4 ∧ a.r5 = b.r5 ∧
  a.r6 = b.r6 ∧ a.r7 = b.r7 ∧ a.r8 = b.r8 ∧ a.r9 = b.r9 ∧ a.r10 = b.r10 ∧
  a.r11 = b.r11 ∧ a.r12 = b.r12 ∧ a.r13 = b.r13 ∧ a.r14 = b.r14 ∧
  a.r15 = b.r15 ∧ a.r16 = b.r16 ∧ a.r17 = b.r17 ∧ a.r18 = b.r18 ∧
  a.r19 = b.r19 ∧ a.r20 = b.r20 ∧ a.r21 = b.r21 ∧ a.r22 = b.r22 ∧
  a.r23 = b.r23 ∧ a.r24 = b.r24 ∧ a.r25 = b.r25 ∧ a.r26 = b.r26 ∧
  a.r27 = b.r27 ∧ a.r28 = b.r28 ∧ a.r29 = b.r29 ∧ a.r30 = b.r30 ∧
  a.r31 = b.r31 ∧ a.f1 = b.f1 ∧ a.f2 = b.f2 ∧ a.f3 = b.f3 ∧ a.f4 = b.f4 ∧
  a.f5 = b.f5 ∧ a.f6 = b.f6 ∧ a.f7 = b.f7 ∧ a.f8 = b.f8 ∧ a.f9 = b.f9 ∧
  a.f10 = b.f10 ∧ a.f11 = b.f11 ∧ a.f12 = b.f12 ∧ a.f13 = b.f13 ∧
  a.f14 = b.f14 ∧ a.f15 = b.f15 ∧ a.f16 = b.f16 ∧ a.f17 = b.f17 ∧
  a.f18 = b.f18 ∧ a.f19 = b.f19 ∧ a.f20 = b.f20 ∧ a.f21 = b.f21 ∧
  a.f22 = b.f22 ∧ a.f23 = b.f23 ∧ a.f24 = b.f24 ∧ a.f25 = b.f25 ∧
  a.f26 = b.f26 ∧ a.f27 = b.f27 ∧ a.f28 = b.f28 ∧ a.f29 = b.f29 ∧
  a.f30 = b.f30 ∧ a.f31 = b.f31 ∧ a.hi = b.hi ∧ a.lo = b.lo ∧
  a.f_odd = b.f_odd ∧ a.status_reg = b.status_reg ∧
  a.mips3_float_mode = b.mips3_float_mode

/-- A context with every register and flag zero (used to instantiate
theorems at concrete inputs). -/
def ctxZero : RecompContext where
  r0 := 0
  r1 := 0
  r2 := 0
  r3 := 0
  r4 := 0
  r5 := 0
  r6 := 0
  r7 := 0
  r8 := 0
  r9 := 0
  r10 := 0
  r11 := 0
  r12 := 0
  r13 := 0
  r14 := 0
  r15 := 0
  r16 := 0
  r17 := 0
  r18 := 0
  r19 := 0
  r20 := 0
  r21 := 0
  r22 := 0
  r23 := 0
  r24 := 0
  r25 := 0
  r26 := 0
  r27 := 0
  r28 := 0
  r29 := 0
  r30 := 0
  r31 := 0
  f0 := ⟨0, 0⟩
  f1 := ⟨0, 0⟩
  f2 := ⟨0, 0⟩
  f3 := ⟨0, 0⟩
  f4 := ⟨0, 0⟩
  f5 := ⟨0, 0⟩
  f6 := ⟨0, 0⟩
  f7 := ⟨0, 0⟩
  f8 := ⟨0, 0⟩
  f9 := ⟨0, 0⟩
  f10 := ⟨0, 0⟩
  f11 := ⟨0, 0⟩
  f12 := ⟨0, 0⟩
  f13 := ⟨0, 0⟩
  f14 := ⟨0, 0⟩
  f15 := ⟨0, 0⟩
  f16 := ⟨0, 0⟩
  f17 := ⟨0, 0⟩
  f18 := ⟨0, 0⟩
  f19 := ⟨0, 0⟩
  f20 := ⟨0, 0⟩
  f21 := ⟨0, 0⟩
  f22 := ⟨0, 0⟩
  f23 := ⟨0, 0⟩
  f24 := ⟨0, 0⟩
  f25 := ⟨0, 0⟩
  f26 := ⟨0, 0⟩
  f27 := ⟨0, 0⟩
  f28 := ⟨0, 0⟩
  f29 := ⟨0, 0⟩
  f30 := ⟨0, 0⟩
  f31 := ⟨0, 0⟩
  hi := 0
  lo := 0
  f_odd := 0
  status_reg := 0
  mips3_float_mode := 0

/-- Context for the end-to-end "OK" scenario: argument slot 3 (r7)
holds the virtual address `0xFFFFFFFF80001000`. -/
def ctxOK : RecompContext := { ctxZero with r7 := 0xFFFFFFFF80001000 }

/-- Host memory for the "OK" scenario: the guest bytes `79 ('O')`,
`75 ('K')`, `0` of the string at `0xFFFFFFFF80001000` live (after the
byte-order remap) at host offsets `0x1003`, `0x1002`, `0x1001`. -/
def rdramOK : Nat → Nat := fun n =>
  if n = 0x1003 then 79 else if n = 0x1002 then 75 else 0

/-- Context whose `f0` register holds distinct nonzero lanes (used to
observe that the high lane survives `set_return`). -/
def ctxF : RecompContext := { ctxZero with f0 := ⟨7, 99⟩ }

/-- Context whose argument slot 1 (r5) holds a full-width 64-bit
value. -/
def ctxArg : RecompContext := { ctxZero with r5 := 0x123456789ABCDEF0 }

/-- XOR with 3 flips only the low two bits: on a number of the form
`4 * a + c` with `c < 4` it acts on `c` alone. -/
theorem aligned_add_xor3 (a c : ℕ) (hc : c < 4) :
    (4 * a + c) ^^^ 3 = 4 * a + (c ^^^ 3) := by
  have key : ∀ (b0 b1 : Bool),
      (Nat.bit b0 (Nat.bit b1 a)) ^^^ 3 = Nat.bit (!b0) (Nat.bit (!b1) a) := by
    intro b0 b1
    have h3 : (3 : ℕ) = Nat.bit true (Nat.bit true 0) := by simp [Nat.bit]
    rw [h3, Nat.xor_bit, Nat.xor_bit]
    cases b0 <;> cases b1 <;> simp
  interval_cases c
  · have e : 4 * a + 0 = Nat.bit false (Nat.bit false a) := by simp [Nat.bit]; ring
    rw [e, key false false]
    have hx : (0 ^^^ 3 : ℕ) = 3 := by decide
    rw [hx]; simp [Nat.bit]; ring
  · have e : 4 * a + 1 = Nat.bit true (Nat.bit false a) := by simp [Nat.bit]; ring
    rw [e, key true false]
    have hx : (1 ^^^ 3 : ℕ) = 2 := by decide
    rw [hx]; simp [Nat.bit]; ring
  · have e : 4 * a + 2 = Nat.bit false (Nat.bit true a) := by simp [Nat.bit]; ring
    rw [e, key false true]
    have hx : (2 ^^^ 3 : ℕ) = 1 := by decide
    rw [hx]; simp [Nat.bit]; ring
  · have e : 4 * a + 3 = Nat.bit true (Nat.bit true a) := by simp [Nat.bit]; ring
    rw [e, key true true]
    have hx : (3 ^^^ 3 : ℕ) = 0 := by decide
    rw [hx]; simp [Nat.bit]; ring

/-- `j ^^^ 3` stays below 4 when `j < 4`. -/
theorem xor3_lt (j : ℕ) (hj : j < 4) : j ^^^ 3 < 4 := by
  interval_cases j <;> decide

/-- `mem_b` reads the host byte at `memIndex`. -/
theorem mem_b_eq_memIndex (rdram : Nat → Nat) (addr k : Nat) :
    mem_b rdram addr k = u8ToI8 (rdram (memIndex addr k)) := rfl

/-- The signed reinterpretation of a byte is zero exactly when the byte
is zero. -/
theorem u8ToI8_eq_zero_iff (b : Nat) : u8ToI8 b = 0 ↔ b % 256 = 0 := by
  unfold u8ToI8
  split <;> omega

/-- Round trip of the byte reinterpretations. -/
theorem i8ToU8_u8ToI8 (b : Nat) : i8ToU8 (u8ToI8 b) = b % 256 := by
  unfold i8ToU8 u8ToI8
  split <;> omega

/-- For an in-range index, `get_arg_u64` returns the argument slot. -/
theorem get_arg_u64_eq_argSlot (c : RecompContext) (i : Nat) (hi : i < 4) :
    c.get_arg_u64 i = some (c.argSlot i) := by
  interval_cases i <;> rfl

/-- `wrapping_sub` of the translation base agrees with subtraction in
the integers modulo `2 ^ 64`. -/
theorem wrappingSub64_seg_int (a : Nat) :
    wrappingSub64 a SEG_OFFSET = (((a : Int) - (SEG_OFFSET : Int)) % 2 ^ 64).toNat := by
  unfold wrappingSub64 SEG_OFFSET
  omega

/-- If `n` is the first offset holding a zero byte, the string-length
loop started at `start ≤ n` with enough fuel returns `n`. -/
theorem strlenLoop_eq_some (rdram : Nat → Nat) (addr n : Nat)
    (h0 : mem_b rdram addr n = 0) :
    ∀ fuel start, start ≤ n → n - start < fuel →
      (∀ m, start ≤ m → m < n → mem_b rdram addr m ≠ 0) →
      strlenLoop rdram addr fuel start = some n := by
  intro fuel
  induction fuel with
  | zero =>
    intro start hs hf _
    omega
  | succ fuel ih =>
    intro start hs hf hpos
    by_cases hst : start = n
    · subst hst
      simp [strlenLoop, h0]
    · have hne : mem_b rdram addr start ≠ 0 := hpos start le_rfl (by omega)
      simp only [strlenLoop, if_neg hne]
      exact ih (start + 1) (by omega) (by omega) fun m hm1 hm2 => hpos m (by omega) hm2

/-- If no offset ever holds a zero byte, the string-length loop never
returns, whatever the fuel. -/
theorem strlenLoop_eq_none (rdram : Nat → Nat) (addr : Nat)
    (hnz : ∀ m, mem_b rdram addr m ≠ 0) :
    ∀ fuel start, strlenLoop rdram addr fuel start = none := by
  intro fuel
  induction fuel with
  | zero => intro start; rfl
  | succ fuel ih =>
    intro start
    simp only [strlenLoop, if_neg (hnz start)]
    exact ih (start + 1)

/-- Claim C1: for every 4-byte-aligned virtual address `A` and offset
`j < 4`, `mem_b` returns the byte stored at host offset
`(A + j) - 0xFFFFFFFF80000000` with its low two bits XORed with 3,
reinterpreted as a signed 8-bit integer; the code's order of operations
(XOR the address with 3, then subtract the base) computes exactly this. -/
theorem mem_b_byte_order_remap (rdram : Nat → Nat) (A j : Nat)
    (hA : A < 2 ^ 64) (hal : A % 4 = 0) (hj : j < 4) :
    mem_b rdram A j = u8ToI8 (rdram (specByteIndex A j)) := by
  obtain ⟨a, rfl⟩ : ∃ a, A = 4 * a := ⟨A / 4, by omega⟩
  have hAj : 4 * a + j < 2 ^ 64 := by omega
  have hj3 : j ^^^ 3 < 4 := xor3_lt j hj
  obtain ⟨b, hb⟩ : ∃ b, (4 * a + 2 ^ 31) % 2 ^ 64 = 4 * b :=
    ⟨(4 * a + 2 ^ 31) % 2 ^ 64 / 4, by omega⟩
  have hspec : specByteIndex (4 * a) j = 4 * b + (j ^^^ 3) := by
    have h1 : (((4 * a : Nat) : Int) + (j : Int) - (SEG_OFFSET : Int)) % 2 ^ 64
        = ((4 * b + j : Nat) : Int) := by
      simp only [SEG_OFFSET]
      omega
    unfold specByteIndex
    rw [h1]
    simp only [Int.toNat_natCast]
    exact aligned_add_xor3 b j hj
  have hcode : wrappingSub64 ((4 * a + j) % 2 ^ 64 ^^^ 3) SEG_OFFSET
      = 4 * b + (j ^^^ 3) := by
    rw [Nat.mod_eq_of_lt hAj, aligned_add_xor3 a j hj]
    unfold wrappingSub64
    simp only [SEG_OFFSET]
    omega
  simp only [mem_b, wrappingAdd64]
  rw [hcode, hspec]

/-- Concrete instantiation of the claim C1 theorem: address
`0xFFFFFFFF80000000`, offset 1, host memory holding `n % 256` at
offset `n`. -/
theorem mem_b_byte_order_remap_witness :
    (0xFFFFFFFF80000000 : Nat) < 2 ^ 64 ∧ (0xFFFFFFFF80000000 : Nat) % 4 = 0 ∧
    (1 : Nat) < 4 ∧
    mem_b (fun n => n % 256) 0xFFFFFFFF80000000 1 =
      u8ToI8 ((fun n : Nat => n % 256) (specByteIndex 0xFFFFFFFF80000000 1)) :=
  ⟨by norm_num, by norm_num, by norm_num,
    mem_b_byte_order_remap (fun n => n % 256) 0xFFFFFFFF80000000 1 (by norm_num)
      (by norm_num) (by norm_num)⟩

/-- Claim C2: an ASCII string `S` (nonzero bytes below 128) stored
null-terminated with the byte-order remap at virtual address `A`, with
argument slot `i` holding `A`, is returned exactly by `get_arg_string`
(with enough fuel for the source's unbounded loop). -/
theorem get_arg_string_roundtrip (c : RecompContext) (rdram : Nat → Nat)
    (i A : Nat) (S : List Nat)
    (hi : i < 4) (hA : c.argSlot i = A)
    (hascii : ∀ ch ∈ S, 0 < ch ∧ ch < 128)
    (hstore : ∀ k, k < S.length → rdram (memIndex A k) = S.getD k 0)
    (hterm : rdram (memIndex A S.length) = 0)
    (fuel : Nat) (hfuel : S.length < fuel) :
    c.get_arg_string rdram i fuel = some (some S) := by
  have hu64 : c.get_arg_u64 i = some A := by
    rw [get_arg_u64_eq_argSlot c i hi, hA]
  have hz : mem_b rdram A S.length = 0 := by
    rw [mem_b_eq_memIndex, hterm]
    decide
  have hnz : ∀ m, m < S.length → mem_b rdram A m ≠ 0 := by
    intro m hm hcontra
    rw [mem_b_eq_memIndex, hstore m hm, u8ToI8_eq_zero_iff] at hcontra
    have hmem : S.getD m 0 ∈ S := by
      rw [List.getD_eq_getElem S 0 hm]
      exact List.getElem_mem hm
    obtain ⟨h1, h2⟩ := hascii _ hmem
    omega
  have hloop : strlenLoop rdram A fuel 0 = some S.length :=
    strlenLoop_eq_some rdram A S.length hz fuel 0 (by omega) (by omega)
      fun m _ hm => hnz m hm
  have hmap : (List.range S.length).map (fun k => i8ToU8 (mem_b rdram A k)) = S := by
    apply List.ext_getElem
    · simp
    · intro k h1 h2
      simp only [List.getElem_map, List.getElem_range]
      have hk : k < S.length := by simpa using h1
      rw [mem_b_eq_memIndex, hstore k hk, i8ToU8_u8ToI8]
      have hmem : S.getD k 0 ∈ S := by
        rw [List.getD_eq_getElem S 0 hk]
        exact List.getElem_mem hk
      obtain ⟨hp1, hp2⟩ := hascii _ hmem
      rw [List.getD_eq_getElem S 0 hk] at hp1 hp2 ⊢
      omega
  unfold RecompContext.get_arg_string
  rw [hu64]
  simp only [hloop, hmap]

/-- Concrete instantiation of the claim C2 theorem: the end-to-end "OK"
scenario (a3 = `0xFFFFFFFF80001000`, guest bytes `O`, `K`, `0`). -/
theorem get_arg_string_roundtrip_witness :
    (3 : Nat) < 4 ∧ ctxOK.argSlot 3 = 0xFFFFFFFF80001000 ∧
    (∀ ch ∈ ([79, 75] : List Nat), 0 < ch ∧ ch < 128) ∧
    (∀ k, k < ([79, 75] : List Nat).length →
      rdramOK (memIndex 0xFFFFFFFF80001000 k) = ([79, 75] : List Nat).getD k 0) ∧
    rdramOK (memIndex 0xFFFFFFFF80001000 ([79, 75] : List Nat).length) = 0 ∧
    ([79, 75] : List Nat).length < 3 ∧
    ctxOK.get_arg_string rdramOK 3 3 = some (some [79, 75]) :=
  ⟨by norm_num, by rfl, by decide, by decide, by rfl, by norm_num,
    get_arg_string_roundtrip ctxOK rdramOK 3 0xFFFFFFFF80001000 [79, 75]
      (by norm_num) rfl (by decide) (by decide) (by rfl) 3 (by norm_num)⟩

/-- Claim C9: for an in-range index, if `n` is the first offset from the
string address holding a zero byte then `get_arg_string` terminates (any
fuel beyond `n` suffices) and returns a string of length exactly `n`,
one character per preceding byte; if no offset ever holds a zero byte
the scan never finishes, whatever the fuel. -/
theorem get_arg_string_termination (c : RecompContext) (rdram : Nat → Nat)
    (i n : Nat) (hi : i < 4) :
    ((mem_b rdram (c.argSlot i) n = 0 ∧
        ∀ m, m < n → mem_b rdram (c.argSlot i) m ≠ 0) →
      ∀ fuel, n < fuel →
        ∃ l, c.get_arg_string rdram i fuel = some (some l) ∧ l.length = n ∧
          l = (List.range n).map fun k => i8ToU8 (mem_b rdram (c.argSlot i) k)) ∧
    ((∀ m, mem_b rdram (c.argSlot i) m ≠ 0) →
      ∀ fuel, c.get_arg_string rdram i fuel = some none) := by
  constructor
  · rintro ⟨h0, hmin⟩ fuel hf
    have hloop : strlenLoop rdram (c.argSlot i) fuel 0 = some n :=
      strlenLoop_eq_some rdram (c.argSlot i) n h0 fuel 0 (by omega) (by omega)
        fun m _ hm => hmin m hm
    refine ⟨(List.range n).map fun k => i8ToU8 (mem_b rdram (c.argSlot i) k), ?_, by simp, rfl⟩
    unfold RecompContext.get_arg_string
    rw [get_arg_u64_eq_argSlot c i hi]
    simp only [hloop]
  · intro hnz fuel
    have hloop : strlenLoop rdram (c.argSlot i) fuel 0 = none :=
      strlenLoop_eq_none rdram (c.argSlot i) hnz fuel 0
    unfold RecompContext.get_arg_string
    rw [get_arg_u64_eq_argSlot c i hi]
    simp only [hloop]

/-- Concrete instantiation of the claim C9 theorem on the "OK" scenario
(first zero byte at offset 2, fuel 3). -/
theorem get_arg_string_termination_witness :
    (3 : Nat) < 4 ∧ mem_b rdramOK (ctxOK.argSlot 3) 2 = 0 ∧
    (∀ m, m < 2 → mem_b rdramOK (ctxOK.argSlot 3) m ≠ 0) ∧ (2 : Nat) < 3 ∧
    ∃ l, ctxOK.get_arg_string rdramOK 3 3 = some (some l) ∧ l.length = 2 ∧
      l = (List.range 2).map fun k => i8ToU8 (mem_b rdramOK (ctxOK.argSlot 3) k) :=
  ⟨by norm_num, by decide, by decide, by norm_num,
    (get_arg_string_termination ctxOK rdramOK 3 2 (by norm_num)).1
      ⟨by decide, by decide⟩ 3 (by norm_num)⟩

/-- Claim C7 counterexample: at the in-range index 0, with every host
byte equal to 1 (no zero terminator anywhere in memory),
`get_arg_string` does not return normally however long it runs - it
neither panics nor produces a string - although the claim as stated
promises a normal return for every index in [0,3]. -/
theorem get_arg_string_no_terminator_diverges :
    ¬ ∃ fuel l, ctxZero.get_arg_string (fun _ => 1) 0 fuel = some (some l) := by
  rintro ⟨fuel, l, h⟩
  have hnz : ∀ m, mem_b (fun _ => 1) 0 m ≠ 0 := by
    intro m
    have h1 : mem_b (fun _ => 1) 0 m = 1 := rfl
    rw [h1]
    decide
  have hloop := strlenLoop_eq_none (fun _ => 1) 0 hnz fuel 0
  have h0 : ctxZero.get_arg_u64 0 = some 0 := rfl
  unfold RecompContext.get_arg_string at h
  rw [h0] at h
  simp only [hloop] at h
  simp at h

/-- Claim C7 (amended): the four slot-indexed extractors panic exactly
when the index is outside [0,3]; `get_arg_u32`, `get_arg_u64` and
`get_arg_ptr` return normally otherwise; `get_arg_string` returns
normally otherwise provided some offset from the string address holds a
zero byte (with no terminator it loops forever); `get_arg_f32` panics
exactly when the index is not 0, and at index 0 returns the low 32-bit
floating lane of the fixed register `f12`, regardless of slot a0. -/
theorem get_arg_raises_iff (c : RecompContext) (rdram : Nat)
    (rdramF : Nat → Nat) (i fuel : Nat) :
    (c.get_arg_u32 i = none ↔ 4 ≤ i) ∧
    (c.get_arg_u64 i = none ↔ 4 ≤ i) ∧
    (c.get_arg_ptr rdram i = none ↔ 4 ≤ i) ∧
    (c.get_arg_string rdramF i fuel = none ↔ 4 ≤ i) ∧
    (c.get_arg_f32 i = none ↔ i ≠ 0) ∧
    c.get_arg_f32 0 = some c.f12.lo ∧
    (i < 4 → (∃ n, mem_b rdramF (c.argSlot i) n = 0) →
      ∃ fl l, c.get_arg_string rdramF i fl = some (some l)) := by
  by_cases hi : i < 4
  · have hu64 := get_arg_u64_eq_argSlot c i hi
    refine ⟨?_, ?_, ?_, ?_, ?_, rfl, ?_⟩
    · unfold RecompContext.get_arg_u32
      simp [hi]
    · rw [hu64]
      simp
      omega
    · unfold RecompContext.get_arg_ptr
      rw [hu64]
      simp
      omega
    · unfold RecompContext.get_arg_string
      rw [hu64]
      constructor
      · intro h
        cases hc : strlenLoop rdramF (c.argSlot i) fuel 0 <;> simp [hc] at h
      · omega
    · unfold RecompContext.get_arg_f32
      split <;> simp_all
    · intro _ hex
      have h0 : mem_b rdramF (c.argSlot i) (Nat.find hex) = 0 := Nat.find_spec hex
      have hmin : ∀ m, m < Nat.find hex → mem_b rdramF (c.argSlot i) m ≠ 0 :=
        fun m hm => Nat.find_min hex hm
      obtain ⟨l, hl, -, -⟩ :=
        (get_arg_string_termination c rdramF i (Nat.find hex) hi).1 ⟨h0, hmin⟩
          (Nat.find hex + 1) (by omega)
      exact ⟨Nat.find hex + 1, l, hl⟩
  · have h4 : 4 ≤ i := by omega
    have hu32 : c.get_arg_u32 i = none := by
      unfold RecompContext.get_arg_u32
      simp [hi]
    have hu64 : c.get_arg_u64 i = none := by
      unfold RecompContext.get_arg_u64
      simp [hi]
    refine ⟨by simp [hu32, h4], by simp [hu64, h4], ?_, ?_, ?_, rfl, by omega⟩
    · unfold RecompContext.get_arg_ptr
      rw [hu64]
      simp [h4]
    · unfold RecompContext.get_arg_string
      rw [hu64]
      simp [h4]
    · unfold RecompContext.get_arg_f32
      split <;> simp_all

/-- Concrete instantiation of the claim C7 theorem at index 3 of the
"OK" scenario (the terminator sits at offset 2). -/
theorem get_arg_raises_iff_witness :
    (ctxOK.get_arg_u32 3 = none ↔ (4 : Nat) ≤ 3) ∧
    (ctxOK.get_arg_u64 3 = none ↔ (4 : Nat) ≤ 3) ∧
    (ctxOK.get_arg_ptr 5 3 = none ↔ (4 : Nat) ≤ 3) ∧
    (ctxOK.get_arg_string rdramOK 3 1 = none ↔ (4 : Nat) ≤ 3) ∧
    (ctxOK.get_arg_f32 3 = none ↔ (3 : Nat) ≠ 0) ∧
    ctxOK.get_arg_f32 0 = some ctxOK.f12.lo ∧
    (∃ fl l, ctxOK.get_arg_string rdramOK 3 fl = some (some l)) := by
  have h := get_arg_raises_iff ctxOK 5 rdramOK 3 1
  exact ⟨h.1, h.2.1, h.2.2.1, h.2.2.2.1, h.2.2.2.2.1, h.2.2.2.2.2.1,
    h.2.2.2.2.2.2 (by norm_num) ⟨2, by decide⟩⟩

/-- Normal form of `set_return`: the type-name dispatch reduces, for
every kind in the closed `RVal` universe, to the float write, the
integer write or the panic. -/
theorem set_return_cases (c : RecompContext) (v : RVal) (junk : Nat) :
    c.set_return v junk =
      if v.isFloatKind then
        Except.ok { c with f0 := ⟨v.bits % 2 ^ 32, c.f0.hi⟩ }
      else if v.supportedKind then
        Except.ok { c with r2 := i32ToU64 (i32OfBits (transmuteCopyI32 v junk)) }
      else
        Except.error c := by
  cases v <;> rfl

/-- Claim C3 (code bug): `set_return` converts the value with
`transmute_copy::<T, i32>`, which always reads 4 bytes at `&val`; for
`bool` (1 byte) the read runs past the value (undefined behavior), so
the stored register value depends on the 3 unspecified adjacent bytes.
With adjacent garbage byte 1 the result for `true` is 257, not the 1
that the claim - and the function's own comment, "First cast to i32 and
then to u64" - requires; only with all-zero garbage does 1 come out. -/
theorem set_return_bool_overread :
    ctxZero.set_return (RVal.rbool true) 1 = Except.ok { ctxZero with r2 := 257 } ∧
    ctxZero.set_return (RVal.rbool true) 0 = Except.ok { ctxZero with r2 := 1 } ∧
    (257 : Nat) ≠ 1 :=
  ⟨rfl, rfl, by norm_num⟩

/-- Claim C4: `set_return` on a 32-bit float writes the exact bit
pattern of the value into the low 32-bit lane of the return floating
register `f0` and leaves the high lane unchanged. -/
theorem set_return_f32_low_lane (c : RecompContext) (b junk : Nat)
    (hb : b < 2 ^ 32) :
    ∃ c2, c.set_return (RVal.rf32 b) junk = Except.ok c2 ∧
      c2.f0.lo = b ∧ c2.f0.hi = c.f0.hi := by
  refine ⟨{ c with f0 := ⟨b % 2 ^ 32, c.f0.hi⟩ }, rfl, ?_, rfl⟩
  exact Nat.mod_eq_of_lt hb

/-- Concrete instantiation of the claim C4 theorem: the bit pattern of
`3.5f32` (`0x40600000`) is written over `f0 = (7, 99)`; the high lane
stays 99. -/
theorem set_return_f32_low_lane_witness :
    (0x40600000 : Nat) < 2 ^ 32 ∧
    ∃ c2, ctxF.set_return (RVal.rf32 0x40600000) 0 = Except.ok c2 ∧
      c2.f0.lo = 0x40600000 ∧ c2.f0.hi = ctxF.f0.hi :=
  ⟨by norm_num, set_return_f32_low_lane ctxF 0x40600000 0 (by norm_num)⟩

/-- Claim C5: `to_ptr` (and `get_arg_ptr` on the value of an argument
slot) returns the region base plus `(addr - 0xFFFFFFFF80000000)` taken
modulo `2 ^ 64` - exactly that constant, with 64-bit wraparound and no
range check. -/
theorem get_arg_ptr_translation (c : RecompContext) (rdram i v : Nat)
    (hi : i < 4) (hv : c.argSlot i = v) (_hlt : v < 2 ^ 64) :
    c.get_arg_ptr rdram i = some (specTranslate rdram v) ∧
    c.to_ptr rdram v = specTranslate rdram v := by
  have hto : c.to_ptr rdram v = specTranslate rdram v := by
    unfold RecompContext.to_ptr specTranslate
    rw [wrappingSub64_seg_int v]
  refine ⟨?_, hto⟩
  unfold RecompContext.get_arg_ptr
  rw [get_arg_u64_eq_argSlot c i hi, hv]
  simp [hto]

/-- Concrete instantiation of the claim C5 theorem: slot 3 of `ctxOK`
holds `0xFFFFFFFF80001000`, which translates to base + `0x1000`. -/
theorem get_arg_ptr_translation_witness :
    (3 : Nat) < 4 ∧ ctxOK.argSlot 3 = 0xFFFFFFFF80001000 ∧
    (0xFFFFFFFF80001000 : Nat) < 2 ^ 64 ∧
    ctxOK.get_arg_ptr 1000 3 = some (specTranslate 1000 0xFFFFFFFF80001000) ∧
    ctxOK.to_ptr 1000 0xFFFFFFFF80001000 = specTranslate 1000 0xFFFFFFFF80001000 :=
  ⟨by norm_num, rfl, by norm_num,
    get_arg_ptr_translation ctxOK 1000 3 0xFFFFFFFF80001000 (by norm_num) rfl
      (by norm_num)⟩

/-- Claim C6: for an in-range index `i` and value `v` in argument slot
`i`, `get_arg_u32` returns the low 32 bits of `v` and `get_arg_u64`
returns `v` unchanged. -/
theorem get_arg_u32_u64_values (c : RecompContext) (i v : Nat)
    (hi : i < 4) (hv : c.argSlot i = v) (hlt : v < 2 ^ 64) :
    c.get_arg_u32 i = some (v % 2 ^ 32) ∧ c.get_arg_u64 i = some v := by
  subst hv
  exact ⟨by interval_cases i <;> rfl, get_arg_u64_eq_argSlot c i hi⟩

/-- Concrete instantiation of the claim C6 theorem: slot 1 holds
`0x123456789ABCDEF0`; the low 32 bits are `0x9ABCDEF0`. -/
theorem get_arg_u32_u64_values_witness :
    (1 : Nat) < 4 ∧ ctxArg.argSlot 1 = 0x123456789ABCDEF0 ∧
    (0x123456789ABCDEF0 : Nat) < 2 ^ 64 ∧
    ctxArg.get_arg_u32 1 = some 0x9ABCDEF0 ∧
    ctxArg.get_arg_u64 1 = some 0x123456789ABCDEF0 := by
  have h := get_arg_u32_u64_values ctxArg 1 0x123456789ABCDEF0 (by norm_num) rfl
    (by norm_num)
  refine ⟨by norm_num, rfl, by norm_num, ?_, h.2⟩
  rw [h.1]
  norm_num

/-- Claim C8: `set_return` panics exactly when the requested kind is
outside the supported set {f32, i32, u32, i16, u16, i8, u8, bool} - in
particular the 64-bit integer and double-precision kinds are rejected -
and at the panic the context is completely unchanged (the rejecting
branch writes nothing before panicking). -/
theorem set_return_raises_iff (c : RecompContext) (v : RVal) (junk : Nat) :
    ((∃ e, c.set_return v junk = Except.error e) ↔ v.supportedKind = false) ∧
    (∀ e, c.set_return v junk = Except.error e → e = c) := by
  rw [set_return_cases]
  cases v <;> simp [RVal.isFloatKind, RVal.supportedKind]

/-- Concrete instantiation of the claim C8 theorem: a 64-bit integer
return is rejected and the context comes through the panic unchanged. -/
theorem set_return_raises_iff_witness :
    ctxZero.set_return (RVal.ri64 0) 0 = Except.error ctxZero ∧
    (RVal.ri64 0).supportedKind = false := by
  have h := set_return_raises_iff ctxZero (RVal.ri64 0) 0
  obtain ⟨e, he⟩ := h.1.mpr rfl
  have hec := h.2 e he
  rw [hec] at he
  exact ⟨he, rfl⟩

/-- Claim C10: the argument-extraction and address-translation
operations take the context immutably (`&self` in the source; they are
embedded as pure functions of the context, so they cannot modify it);
the one mutating operation, `set_return`, when it succeeds modifies only
the integer return slot `r2` (integer/boolean kinds) or the low lane of
`f0` (float kind), leaving every other field - all other GPRs including
`r0`, all other FPRs, `hi`, `lo`, `f_odd`, `status_reg`,
`mips3_float_mode`, and for the float kind also `r2` and the high lane
of `f0` - unchanged. -/
theorem set_return_frame (c : RecompContext) (v : RVal) (junk : Nat)
    (c2 : RecompContext) (h : c.set_return v junk = Except.ok c2) :
    agreesExceptReturns c c2 ∧
    (v.isFloatKind = true → c2.r2 = c.r2 ∧ c2.f0.hi = c.f0.hi) ∧
    (v.isFloatKind = false → c2.f0 = c.f0) := by
  rw [set_return_cases] at h
  cases v <;> simp [RVal.isFloatKind, RVal.supportedKind] at h ⊢ <;>
    subst h <;> simp [agreesExceptReturns]

/-- Concrete instantiation of the claim C10 theorem: a `u16` return
writes 65535 into `r2` and touches nothing else of `ctxF`. -/
theorem set_return_frame_witness :
    ctxF.set_return (RVal.ru16 0xFFFF) 0 = Except.ok { ctxF with r2 := 65535 } ∧
    (agreesExceptReturns ctxF { ctxF with r2 := 65535 } ∧
      ((RVal.ru16 0xFFFF).isFloatKind = true →
        ({ ctxF with r2 := 65535 } : RecompContext).r2 = ctxF.r2 ∧
        ({ ctxF with r2 := 65535 } : RecompContext).f0.hi = ctxF.f0.hi) ∧
      ((RVal.ru16 0xFFFF).isFloatKind = false →
        ({ ctxF with r2 := 65535 } : RecompContext).f0 = ctxF.f0)) :=
  ⟨rfl, set_return_frame ctxF (RVal.ru16 0xFFFF) 0 { ctxF with r2 := 65535 } rfl⟩

end N64Recomp
